import Mathlib

/-!
Verification development for the VideoConverter daemon
(`video_converter_daemon.py`, `sftp_ops.py`).

The Python source is shallowly embedded: paths are modelled as `String`
(or `List Char` for character-level path algorithms), JSON values as an
inductive type, filesystem and remote-host state as explicit structures,
and every fallible operation as `Except`/`Option`.  Each definition is a
direct translation of the corresponding Python function, keeping the
source's control flow (order of checks, early returns, exception paths).
-/

namespace VideoConverter

/-! ## Character helpers -/

/-- ASCII lower-casing of a single character, as used by Python's
`str.lower()` on the ASCII extension/suffix strings compared here. -/
def toLowerChar (c : Char) : Char :=
  if 'A' ≤ c ∧ c ≤ 'Z' then Char.ofNat (c.toNat + 32) else c

/-- Lowercase hex digit test for the ledger identity pattern `[a-f0-9]`. -/
def isHexLower (c : Char) : Bool :=
  ('a' ≤ c && c ≤ 'f') || ('0' ≤ c && c ≤ '9')

/-! ## POSIX path algebra (`posixpath` as used by `sftp_ops.py`)

`posixpath.normpath`, `posixpath.isabs` and `str.split('/')` are
re-implemented character-by-character from CPython, operating on
`List Char` so that every proof obligation is kernel-computable. -/

/-- Python `str.split('/')`: `""` splits to `[""]`, `"/a"` to `["", "a"]`. -/
def splitSlash : List Char → List (List Char)
  | [] => [[]]
  | c :: rest =>
    match splitSlash rest with
    | [] => [[]]
    | r :: rs => if c = '/' then [] :: r :: rs else (c :: r) :: rs

/-- Number of initial slashes kept by `posixpath.normpath`: POSIX preserves
exactly two leading slashes (`''//x''` stays `//x`), but three or more
collapse to one. -/
def initialSlashes : List Char → Nat
  | '/' :: '/' :: '/' :: _ => 1
  | '/' :: '/' :: _ => 2
  | '/' :: _ => 1
  | _ => 0

/-- One step of `posixpath.normpath`'s component loop: drop empty and `.`
components, append ordinary components, and let `..` cancel a previous
component unless the path is relative and nothing precedes it (or the
previous component is itself a surviving `..`). -/
def normStep (absFlag : Bool) (acc : List (List Char)) (comp : List Char) :
    List (List Char) :=
  if comp = [] ∨ comp = ['.'] then acc
  else if comp ≠ ['.', '.'] ∨ (absFlag = false ∧ acc = [])
      ∨ (acc ≠ [] ∧ acc.getLast? = some ['.', '.']) then
    acc ++ [comp]
  else acc.dropLast

/-- Join path components with `/` (Python `'/'.join(new_comps)`). -/
def joinSlash : List (List Char) → List Char
  | [] => []
  | [c] => c
  | c :: rest => c ++ '/' :: joinSlash rest

/-- CPython `posixpath.normpath`, translated step for step. -/
def normpathChars (p : List Char) : List Char :=
  if p = [] then ['.']
  else
    let slashes := initialSlashes p
    let comps := (splitSlash p).foldl (normStep (slashes != 0)) []
    let result := List.replicate slashes '/' ++ joinSlash comps
    if result = [] then ['.'] else result

/-- Python `posixpath.isabs` on an already-normalized path. -/
def isAbsChars : List Char → Bool
  | '/' :: _ => true
  | _ => false

/-- Source `sftp_ops.validate_remote_path`: normalize, reject surviving
`..` segments, require an absolute path, then accept when the path equals
some normalized allowed directory or extends it past a `/` boundary. -/
def validate_remote_path (path : String) (allowed_dirs : List String) : Bool :=
  let normalized := normpathChars path.data
  if (splitSlash normalized).contains ['.', '.'] then false
  else if !isAbsChars normalized then false
  else allowed_dirs.any fun d =>
    let a := normpathChars d.data
    normalized = a || List.isPrefixOf (a ++ ['/']) normalized

/-- Containment property in the spec's words: the normalized candidate is
absolute, keeps no `..` segment, and equals or lies strictly beneath (with
a path-separator boundary) the normalized form of some allowed prefix. -/
def remotePathContained (P : String) (R : List String) : Prop :=
  isAbsChars (normpathChars P.data) = true ∧
  (splitSlash (normpathChars P.data)).contains ['.', '.'] = false ∧
  ∃ r ∈ R, normpathChars P.data = normpathChars r.data ∨
    List.isPrefixOf (normpathChars r.data ++ ['/']) (normpathChars P.data) = true

/-- C5: `validate_remote_path` returns true exactly when the normalized
path is absolute, has no surviving `..` segment, and equals or lies
strictly beneath (with a `/` boundary) some normalized allowed prefix; in
particular `/media2/...` is not accepted under root `/media`, and
`/media/../etc/passwd` is rejected under root `/media`. -/
theorem c5_remote_path_containment (P : String) (R : List String) :
    (validate_remote_path P R = true ↔ remotePathContained P R)
    ∧ validate_remote_path "/media2/x" ["/media"] = false
    ∧ validate_remote_path "/media/../etc/passwd" ["/media"] = false := by
  refine ⟨?_, by decide, by decide⟩
  by_cases hdd : (splitSlash (normpathChars P.data)).contains ['.', '.']
  · have hdd' : ['.', '.'] ∈ splitSlash (normpathChars P.data) := by simpa using hdd
    simp [validate_remote_path, remotePathContained, hdd, hdd']
  · have hdd' : ['.', '.'] ∉ splitSlash (normpathChars P.data) := by
      simpa using hdd
    by_cases habs : isAbsChars (normpathChars P.data)
    · simp [validate_remote_path, remotePathContained, hdd, habs,
        List.any_eq_true]
    · simp [validate_remote_path, remotePathContained, hdd, habs]

/-! ## JSON values and the processed-files ledger

`processed.json` content is modelled as an `Option Json`: `some j` is the
value produced by a successful `json.load`, while `none` stands for
malformed content on which `json.load` raises `JSONDecodeError`. -/

/-- JSON value as produced by Python's `json.load` (numbers collapsed to
an integer field; the ledger code only tests `isinstance(..., (int, float))`
and compares nothing about the numeric value). -/
inductive Json where
  | str : String → Json
  | num : Int → Json
  | bool : Bool → Json
  | null : Json
  | arr : List Json → Json
  | obj : List (String × Json) → Json

/-- Python `re.match(r'^[a-f0-9]{64}$', s)`: 64 lowercase hex digits,
where `$` (Python semantics) also matches just before one trailing
newline, so a 65-character value ending in `\n` passes too. -/
def matchesHashPattern (s : String) : Bool :=
  let cs := s.data
  (cs.length = 64 && cs.all isHexLower) ||
    (cs.length = 65 && (cs.take 64).all isHexLower && cs.getLast? = some '\n')

/-- Strict 64-lowercase-hex identity, the shape `get_file_hash`
(`hashlib.sha256(...).hexdigest()`) actually produces. -/
def isValidHash (s : String) : Bool :=
  s.data.length = 64 && s.data.all isHexLower

/-- Check from `load_processed_files`: metadata is harvested into
`conversion_times` only when it is a dict whose `timestamp` is numeric. -/
def isTimestampDict : Json → Bool
  | Json.obj fields =>
    match fields.lookup "timestamp" with
    | some (Json.num _) => true
    | _ => false
  | _ => false

/-- Result of `load_processed_files`: the returned processed set (listed
as the keys in file order) and the side effect on `self.conversion_times`. -/
structure LoadResult where
  processed : List String
  times : List (String × Json)

/-- Validation loop of the dict branch of `load_processed_files`: walks
the items in order, harvesting timestamp metadata, and stops with `false`
at the first key failing the identity pattern (entries harvested before
that point remain in `conversion_times`, mirroring the source's side
effect ordering). -/
def loadDictLoop (acc : List (String × Json)) :
    List (String × Json) → Bool × List (String × Json)
  | [] => (true, acc)
  | (k, v) :: rest =>
    if !matchesHashPattern k then (false, acc)
    else loadDictLoop (if isTimestampDict v then acc ++ [(k, v)] else acc) rest

/-- Array item check of the list branch: items must be strings matching
the identity pattern. -/
def isHashItem : Json → Bool
  | Json.str s => matchesHashPattern s
  | _ => false

/-- String payload of an array item (the list branch only reaches the
collection step once every item passed `isHashItem`). -/
def hashItemStr : Json → String
  | Json.str s => s
  | _ => ""

/-- Source `load_processed_files` on the content of an existing
`processed.json`.  `none` (malformed JSON) propagates the `json.load`
exception — the source wraps the load in no try/except.  A parsed dict
yields its key set unless some key fails the pattern (full reset); a
parsed list yields its items unless some item fails (full reset); any
other top-level shape resets to empty. -/
def load_processed_files (content : Option Json) : Except Unit LoadResult :=
  match content with
  | none => Except.error ()
  | some (Json.obj items) =>
    match loadDictLoop [] items with
    | (true, times) => Except.ok ⟨items.map Prod.fst, times⟩
    | (false, times) => Except.ok ⟨[], times⟩
  | some (Json.arr items) =>
    if items.all isHashItem then Except.ok ⟨items.map hashItemStr, []⟩
    else Except.ok ⟨[], []⟩
  | some _ => Except.ok ⟨[], []⟩

/-- Entries written by `save_processed_files`: each processed hash with
its `conversion_times` metadata, or a synthesized `{"timestamp": now}`
for hashes without timing data. -/
def saved_entries (processed : List String) (times : List (String × Json))
    (now : Int) : List (String × Json) :=
  processed.map fun h =>
    (h, match times.lookup h with
        | some m => m
        | none => Json.obj [("timestamp", Json.num now)])

/-- Source `save_processed_files`: always writes the object (mapping)
shape containing the full processed set. -/
def save_processed_files (processed : List String)
    (times : List (String × Json)) (now : Int) : Json :=
  Json.obj (saved_entries processed times now)

/-- Top-level shape test: array or object. -/
def isArrOrObj : Json → Bool
  | Json.arr _ => true
  | Json.obj _ => true
  | _ => false

theorem loadDictLoop_fst_false (k : String) (v : Json) :
    ∀ (items acc : List (String × Json)), (k, v) ∈ items →
    matchesHashPattern k = false → (loadDictLoop acc items).1 = false := by
  intro items
  induction items with
  | nil => intro acc h _; cases h
  | cons p rest ih =>
    intro acc hmem hbad
    obtain ⟨k', v'⟩ := p
    by_cases hk : matchesHashPattern k' = true
    · rcases List.mem_cons.mp hmem with heq | htail
      · injection heq with hkk _
        rw [← hkk] at hk
        rw [hk] at hbad
        cases hbad
      · simp only [loadDictLoop, hk, Bool.not_true, Bool.false_eq_true,
          if_false, ite_false]
        exact ih _ htail hbad
    · have hk' : matchesHashPattern k' = false := by
        cases h : matchesHashPattern k' with
        | true => exact absurd h hk
        | false => rfl
      simp [loadDictLoop, hk']

theorem loadDictLoop_all_valid :
    ∀ (times acc : List (String × Json)),
    (∀ p ∈ times, matchesHashPattern p.1 = true) →
    (∀ p ∈ times, isTimestampDict p.2 = true) →
    loadDictLoop acc times = (true, acc ++ times) := by
  intro times
  induction times with
  | nil => intro acc _ _; simp [loadDictLoop]
  | cons p rest ih =>
    intro acc h1 h2
    obtain ⟨k, v⟩ := p
    have hk := h1 (k, v) (List.mem_cons_self _ _)
    have hv := h2 (k, v) (List.mem_cons_self _ _)
    simp only [loadDictLoop, hk, hv, Bool.not_true, Bool.false_eq_true,
      if_false, ite_false, if_true, ite_true]
    rw [ih (acc ++ [(k, v)]) (fun q hq => h1 q (List.mem_cons_of_mem _ hq))
      (fun q hq => h2 q (List.mem_cons_of_mem _ hq))]
    simp

theorem lookup_map_self (g : String → Json) :
    ∀ (l : List String) (h : String), h ∈ l →
    (l.map fun x => (x, g x)).lookup h = some (g h) := by
  intro l
  induction l with
  | nil => intro h hm; cases hm
  | cons x rest ih =>
    intro h hm
    rcases List.mem_cons.mp hm with heq | htail
    · subst heq; simp [List.lookup]
    · by_cases hx : h = x
      · subst hx; simp [List.lookup]
      · have hbe : (h == x) = false := by simpa using hx
        simp only [List.map, List.lookup, hbe]
        exact ih h htail

theorem saved_entries_aligned (now : Int) :
    ∀ (times : List (String × Json)), (times.map Prod.fst).Nodup →
    saved_entries (times.map Prod.fst) times now = times := by
  intro times
  induction times with
  | nil => intro _; simp [saved_entries]
  | cons p rest ih =>
    intro hnd
    obtain ⟨k, v⟩ := p
    rw [List.map_cons, List.nodup_cons] at hnd
    obtain ⟨hknotin, hrest⟩ := hnd
    simp only [saved_entries, List.map_cons]
    congr 1
    · simp [List.lookup]
    · have hcong : ∀ h ∈ rest.map Prod.fst,
          (((k, v) :: rest).lookup h) = rest.lookup h := by
        intro h hm
        have hne : h ≠ k := fun he => hknotin (he ▸ hm)
        have hbe : (h == k) = false := by simpa using hne
        simp [List.lookup, hbe]
      calc (rest.map Prod.fst).map
            (fun h => (h, match ((k, v) :: rest).lookup h with
              | some m => m
              | none => Json.obj [("timestamp", Json.num now)]))
          = (rest.map Prod.fst).map
            (fun h => (h, match rest.lookup h with
              | some m => m
              | none => Json.obj [("timestamp", Json.num now)])) := by
            apply List.map_congr_left
            intro a ha
            rw [hcong a ha]
        _ = rest := by simpa [saved_entries] using ih hrest

theorem validHash_matches (s : String) (h : isValidHash s = true) :
    matchesHashPattern s = true := by
  simp only [isValidHash, Bool.and_eq_true, decide_eq_true_eq] at h
  simp [matchesHashPattern, h.1, h.2]

/-- C2 counterexample: on malformed JSON (`json.load` fails) the loader
does not return an empty ledger — the exception propagates, because
`load_processed_files` wraps `json.load` in no try/except. -/
theorem c2_counterexample_malformed_raises :
    load_processed_files none = Except.error () := rfl

/-- C2 (amended): once `json.load` succeeds, the loader never raises; a
dict containing any key failing the identity-pattern check loads as the
empty set; an array containing any invalid item loads as the empty set;
any top-level shape that is neither array nor object loads as the empty
set.  Malformed JSON, by contrast, propagates the `json.load` exception. -/
theorem c2_corruption_failsafe (j : Json) :
    (∃ r, load_processed_files (some j) = Except.ok r)
    ∧ (∀ items k v, j = Json.obj items → (k, v) ∈ items →
        matchesHashPattern k = false →
        ∃ ts, load_processed_files (some j) = Except.ok ⟨[], ts⟩)
    ∧ (∀ items it, j = Json.arr items → it ∈ items → isHashItem it = false →
        load_processed_files (some j) = Except.ok ⟨[], []⟩)
    ∧ (isArrOrObj j = false → load_processed_files (some j) = Except.ok ⟨[], []⟩) := by
  refine ⟨?_, ?_, ?_, ?_⟩
  · cases j with
    | obj items =>
      rcases h : loadDictLoop [] items with ⟨b, ts⟩
      cases b
      · exact ⟨⟨[], ts⟩, by simp [load_processed_files, h]⟩
      · exact ⟨⟨items.map Prod.fst, ts⟩, by simp [load_processed_files, h]⟩
    | arr items =>
      by_cases h : items.all isHashItem = true
      · exact ⟨⟨items.map hashItemStr, []⟩, by simp [load_processed_files, h]⟩
      · exact ⟨⟨[], []⟩, by simp [load_processed_files, h]⟩
    | str s => exact ⟨⟨[], []⟩, rfl⟩
    | num n => exact ⟨⟨[], []⟩, rfl⟩
    | bool b => exact ⟨⟨[], []⟩, rfl⟩
    | null => exact ⟨⟨[], []⟩, rfl⟩
  · intro items k v hj hmem hbad
    subst hj
    have hf := loadDictLoop_fst_false k v items [] hmem hbad
    rcases h : loadDictLoop [] items with ⟨b, ts⟩
    rw [h] at hf
    subst hf
    exact ⟨ts, by simp [load_processed_files, h]⟩
  · intro items it hj hmem hbad
    subst hj
    have hall : items.all isHashItem = false := by
      cases h : items.all isHashItem with
      | false => rfl
      | true =>
        have := (List.all_eq_true.mp h) it hmem
        rw [hbad] at this
        cases this
    simp [load_processed_files, hall]
  · intro hshape
    cases j with
    | arr items => simp [isArrOrObj] at hshape
    | obj items => simp [isArrOrObj] at hshape
    | str s => rfl
    | num n => rfl
    | bool b => rfl
    | null => rfl

/-- C2 witness: a dict whose single key fails the identity pattern loads
as the empty set without an exception. -/
theorem c2_corruption_failsafe_witness :
    ∃ ts, load_processed_files (some (Json.obj [("bad", Json.null)])) =
      Except.ok ⟨[], ts⟩ :=
  (c2_corruption_failsafe (Json.obj [("bad", Json.null)])).2.1
    [("bad", Json.null)] "bad" Json.null rfl (by simp) rfl

/-- C4: saving a well-formed ledger (64-hex keys, timestamp-bearing
metadata aligned with the processed set) and loading it back reproduces
the ledger exactly; the save always writes the object (mapping) shape; a
hash without timing data is written with a synthesized timestamp only; a
legacy flat array of valid identities loads to exactly those identities
with no metadata harvested. -/
theorem c4_ledger_round_trip (processed : List String)
    (times : List (String × Json)) (now : Int) :
    (∃ entries, save_processed_files processed times now = Json.obj entries)
    ∧ (times.map Prod.fst = processed → processed.Nodup →
        (∀ h ∈ processed, isValidHash h = true) →
        (∀ p ∈ times, isTimestampDict p.2 = true) →
        load_processed_files (some (save_processed_files processed times now)) =
          Except.ok ⟨processed, times⟩)
    ∧ (∀ h ∈ processed, times.lookup h = none →
        (saved_entries processed times now).lookup h =
          some (Json.obj [("timestamp", Json.num now)]))
    ∧ (∀ items : List String, (∀ s ∈ items, isValidHash s = true) →
        load_processed_files (some (Json.arr (items.map Json.str))) =
          Except.ok ⟨items, []⟩) := by
  refine ⟨⟨saved_entries processed times now, rfl⟩, ?_, ?_, ?_⟩
  · intro halign hnd hkeys htimes
    subst halign
    have hentries : saved_entries (times.map Prod.fst) times now = times :=
      saved_entries_aligned now times hnd
    have hloop : loadDictLoop [] times = (true, times) := by
      rw [loadDictLoop_all_valid times []
        (fun p hp => validHash_matches p.1 (hkeys p.1 (List.mem_map_of_mem _ hp)))
        htimes]
      simp
    simp [load_processed_files, save_processed_files, hentries, hloop]
  · intro h hmem hnone
    have := lookup_map_self
      (fun x => match times.lookup x with
        | some m => m
        | none => Json.obj [("timestamp", Json.num now)]) processed h hmem
    rw [saved_entries, this]
    simp [hnone]
  · intro items hvalid
    have hall : (items.map Json.str).all isHashItem = true := by
      rw [List.all_eq_true]
      intro it hit
      obtain ⟨s, hs, rfl⟩ := List.mem_map.mp hit
      exact validHash_matches s (hvalid s hs)
    have hmap : (items.map Json.str).map hashItemStr = items := by
      rw [List.map_map]
      have hid : ∀ a ∈ items, (hashItemStr ∘ Json.str) a = id a := fun a _ => rfl
      rw [List.map_congr_left hid, List.map_id]
    simp [load_processed_files, hall, hmap]

/-- C4 witness: a concrete one-entry ledger with a valid identity and
timestamp metadata round-trips exactly through save then load. -/
theorem c4_ledger_round_trip_witness :
    load_processed_files (some (save_processed_files
      ["aaaaaaaaaaaaaaaaaaaaaaaaaaaaaaaaaaaaaaaaaaaaaaaaaaaaaaaaaaaaaaaa"]
      [("aaaaaaaaaaaaaaaaaaaaaaaaaaaaaaaaaaaaaaaaaaaaaaaaaaaaaaaaaaaaaaaa",
        Json.obj [("timestamp", Json.num 5), ("duration_seconds", Json.num 2)])]
      9)) =
    Except.ok ⟨["aaaaaaaaaaaaaaaaaaaaaaaaaaaaaaaaaaaaaaaaaaaaaaaaaaaaaaaaaaaaaaaa"],
      [("aaaaaaaaaaaaaaaaaaaaaaaaaaaaaaaaaaaaaaaaaaaaaaaaaaaaaaaaaaaaaaaa",
        Json.obj [("timestamp", Json.num 5), ("duration_seconds", Json.num 2)])]⟩ :=
  (c4_ledger_round_trip _ _ 9).2.1 rfl (by simp)
    (by intro h hh; simp at hh; subst hh; rfl)
    (by intro p hp; simp at hp; subst hp; rfl)

/-! ## Atomicity of `save_processed_files` (C3)

The on-disk effect of `save_processed_files` is modelled as a state
machine over the state directory: `processed.json` and the temporary
`processed.json.tmp`, each either absent or holding some content.  The
Python body is `open tmp / write json / os.replace(tmp, db)` inside a
`try`, with `tmp_file.unlink(missing_ok=True); raise` on any failure. -/

/-- Content of the temporary file at a given moment: just created and
truncated by `os.open(..., O_CREAT | O_TRUNC)`, interrupted mid-write, or
fully written. -/
inductive TmpContent where
  | empty
  | partialData
  | full (entries : List (String × Json))

/-- The state directory: the durable ledger file and the temp file. -/
structure SaveFS where
  ledger : Option (List (String × Json))
  tmp : Option TmpContent

/-- Which step of the save raises, if any. -/
inductive SaveFail where
  | none
  | atOpen
  | atWrite
  | atReplace

/-- Effect of `os.open(tmp, O_WRONLY | O_CREAT | O_TRUNC, 0o600)`. -/
def openTmp (fs : SaveFS) : SaveFS := { fs with tmp := some TmpContent.empty }

/-- Effect of an interrupted `json.dump` into the temp file. -/
def writeTmpPartial (fs : SaveFS) : SaveFS :=
  { fs with tmp := some TmpContent.partialData }

/-- Effect of a completed `json.dump` of the full mapping. -/
def writeTmpFull (entries : List (String × Json)) (fs : SaveFS) : SaveFS :=
  { fs with tmp := some (TmpContent.full entries) }

/-- Effect of `os.replace(tmp, db)`: atomic rename of the fully-written
temp file over the ledger file. -/
def replaceTmp (fs : SaveFS) : SaveFS :=
  match fs.tmp with
  | some (TmpContent.full entries) => { ledger := some entries, tmp := none }
  | _ => fs

/-- Effect of `tmp_file.unlink(missing_ok=True)` in the except handler. -/
def unlinkTmp (fs : SaveFS) : SaveFS := { fs with tmp := none }

/-- Source `save_processed_files`, as its effect on the state directory:
the full mapping `saved_entries processed times now` is written to the
temp file and renamed over `processed.json`; any failure removes the temp
file and re-raises. -/
def save_processed_files_run (processed : List String)
    (times : List (String × Json)) (now : Int) (fs : SaveFS)
    (fail : SaveFail) : SaveFS × Except Unit Unit :=
  let entries := saved_entries processed times now
  match fail with
  | SaveFail.atOpen => (unlinkTmp fs, Except.error ())
  | SaveFail.atWrite => (unlinkTmp (writeTmpPartial (openTmp fs)), Except.error ())
  | SaveFail.atReplace =>
    (unlinkTmp (writeTmpFull entries (openTmp fs)), Except.error ())
  | SaveFail.none => (replaceTmp (writeTmpFull entries (openTmp fs)), Except.ok ())

/-- C3: whenever the save fails — at open, mid-write, or at the rename
itself — the temp file has been removed by the time the error propagates
and the previously persisted ledger file is unchanged; a successful save
leaves the full mapping as the ledger and no temp file. -/
theorem c3_save_atomicity (processed : List String)
    (times : List (String × Json)) (now : Int) (fs : SaveFS)
    (fail : SaveFail) :
    ((save_processed_files_run processed times now fs fail).2 = Except.error () →
      (save_processed_files_run processed times now fs fail).1.tmp = none ∧
      (save_processed_files_run processed times now fs fail).1.ledger = fs.ledger)
    ∧ ((save_processed_files_run processed times now fs fail).2 = Except.ok () →
      (save_processed_files_run processed times now fs fail).1.ledger =
        some (saved_entries processed times now) ∧
      (save_processed_files_run processed times now fs fail).1.tmp = none) := by
  cases fail with
  | none =>
    refine ⟨fun h => ?_, fun _ => ?_⟩
    · simp [save_processed_files_run] at h
    · simp [save_processed_files_run, replaceTmp, writeTmpFull, openTmp]
  | atOpen =>
    refine ⟨fun _ => ?_, fun h => ?_⟩
    · simp [save_processed_files_run, unlinkTmp]
    · simp [save_processed_files_run] at h
  | atWrite =>
    refine ⟨fun _ => ?_, fun h => ?_⟩
    · simp [save_processed_files_run, unlinkTmp, writeTmpPartial, openTmp]
    · simp [save_processed_files_run] at h
  | atReplace =>
    refine ⟨fun _ => ?_, fun h => ?_⟩
    · simp [save_processed_files_run, unlinkTmp, writeTmpFull, openTmp]
    · simp [save_processed_files_run] at h

/-- C3 witness: a mid-write failure on a concrete state leaves no temp
file and the previous ledger byte-for-byte in place. -/
theorem c3_save_atomicity_witness :
    (save_processed_files_run ["h"] [] 0
        ⟨some [("old", Json.null)], none⟩ SaveFail.atWrite).1.tmp = none ∧
    (save_processed_files_run ["h"] [] 0
        ⟨some [("old", Json.null)], none⟩ SaveFail.atWrite).1.ledger =
      some [("old", Json.null)] :=
  (c3_save_atomicity ["h"] [] 0 ⟨some [("old", Json.null)], none⟩
    SaveFail.atWrite).1 rfl

/-! ## Pathlib/posixpath suffix helpers

`pathlib.PurePath.suffix` / `with_suffix` (used in local mode) and
`posixpath.splitext` (used in remote mode) re-implemented from CPython. -/

/-- Split a character list at its last `'.'`: `some (before, dotAndAfter)`
when a dot occurs, `none` otherwise. -/
def lastDotSplit : List Char → Option (List Char × List Char)
  | [] => none
  | c :: rest =>
    match lastDotSplit rest with
    | some (pre, ext) => some (c :: pre, ext)
    | none => if c = '.' then some ([], c :: rest) else none

/-- Final path component (text after the last `/`). -/
def pathBasename (s : List Char) : List Char := (splitSlash s).getLastD []

/-- `pathlib.PurePath.suffix`: the extension from the last dot of the
final component, provided that dot is neither the first nor the last
character of the component. -/
def pathSuffix (s : List Char) : List Char :=
  match lastDotSplit (pathBasename s) with
  | some (pre, ext) => if pre ≠ [] ∧ ext.length ≥ 2 then ext else []
  | none => []

/-- `pathlib.PurePath.with_suffix('.m4v')`: drop the current suffix (if
any) and append `.m4v`. -/
def with_suffix_m4v (p : String) : String :=
  String.mk (p.data.take (p.data.length - (pathSuffix p.data).length)
    ++ ".m4v".data)

/-- Extension part of `posixpath.splitext`: from the last dot of the
final component, except that a run of leading dots never starts an
extension. -/
def posixSplitextExt (s : List Char) : List Char :=
  match lastDotSplit ((pathBasename s).dropWhile (fun c => c = '.')) with
  | some (_, ext) => ext
  | none => []

/-- Root part of `posixpath.splitext`. -/
def posixSplitextRoot (s : List Char) : List Char :=
  s.take (s.length - (posixSplitextExt s).length)

/-! ## Eligibility and conversion pipeline state (C1, C8, C10)

`get_file_hash` (`hashlib.sha256(path.encode()).hexdigest()`) is an
external cryptographic primitive; it enters every claim only through
membership of its result in the ledger / in-flight set, so it is carried
as an explicit function parameter `hash` rather than re-implemented. -/

/-- Source constant `MAX_FILE_SIZE_BYTES` (100 GB). -/
def MAX_FILE_SIZE_BYTES : Nat := 100 * 1024 * 1024 * 1024

/-- Source constant `MAX_DISCOVERED_FILES`. -/
def MAX_DISCOVERED_FILES : Nat := 10000

/-- Daemon mutable state relevant here: the in-memory processed set, the
in-flight converting set, and the persisted ledger's key set (`disk` is
what a reload of `processed.json` would yield). -/
structure ConvState where
  processed : List String
  converting : List String
  disk : List String

/-- Python `set.add`. -/
def setAdd (h : String) (l : List String) : List String :=
  if h ∈ l then l else l ++ [h]

/-- Python `set.discard`. -/
def setDiscard (h : String) (l : List String) : List String :=
  l.filter fun x => x ≠ h

/-- Local filesystem view used by `_should_process_local`: existence of
the sibling output path, and `stat().st_size` (`none` models `OSError`). -/
structure LocalFS where
  pathExists : String → Bool
  statSize : String → Option Nat

/-- Source `_should_process_local`, in the source's check order: ledger
membership, in-flight membership, existing sibling output, `.m4v` input
suffix, then size gating with fail-closed stat. -/
def should_process_local (hash : String → String) (st : ConvState)
    (fs : LocalFS) (path : String) : Bool :=
  let h := hash path
  if h ∈ st.processed then false
  else if h ∈ st.converting then false
  else
    let output := with_suffix_m4v path
    if fs.pathExists output && output ≠ path then false
    else if (pathSuffix path.data).map toLowerChar = ".m4v".data then false
    else match fs.statSize path with
      | none => false
      | some size =>
        if size > MAX_FILE_SIZE_BYTES then false
        else if size = 0 then false
        else true

/-- Filtering step of `process_batch`: the videos actually dispatched to
the worker pool. -/
def process_batch_to_process (hash : String → String) (st : ConvState)
    (fs : LocalFS) (videos : List String) : List String :=
  videos.filter fun v => should_process_local hash st fs v

/-- Where a local conversion attempt ends: each constructor is one exit
path of `_convert_video_local` (early `return False`s, the two `except`
clauses, the dry-run short-circuit, and success). -/
inductive ConvEvent where
  | dryRun
  | fileVanished
  | unsafePath
  | diskCheckError
  | lowDiskWork
  | lowDiskOutput
  | tempEscapes
  | ffmpegFail
  | ffmpegTimeout
  | outputNotFile
  | moveRaises
  | saveRaises
  | success
deriving DecidableEq

/-- Source `_convert_video_local` as a state transition: the hash is
added to the in-flight set up front, the body ends in the given event,
and the `finally` block removes the hash unconditionally.  Ledger commit
(`processed.add` + `save_processed_files`) happens only on the dry-run and
success paths; `saveRaises` models `save_processed_files` raising after
the in-memory add — caught by the outer `except`, so the attempt returns
`False` with the in-memory ledger already updated (the disk file is
unchanged, by the atomicity of the save). -/
def convert_video_local (hash : String → String) (path : String)
    (ev : ConvEvent) (st : ConvState) : ConvState × Bool :=
  let h := hash path
  let st1 : ConvState := { st with converting := setAdd h st.converting }
  let step : ConvState × Bool :=
    match ev with
    | ConvEvent.dryRun =>
      let p := setAdd h st1.processed
      ({ st1 with processed := p, disk := p }, true)
    | ConvEvent.fileVanished => (st1, false)
    | ConvEvent.unsafePath => (st1, false)
    | ConvEvent.diskCheckError => (st1, false)
    | ConvEvent.lowDiskWork => (st1, false)
    | ConvEvent.lowDiskOutput => (st1, false)
    | ConvEvent.tempEscapes => (st1, false)
    | ConvEvent.ffmpegFail => (st1, false)
    | ConvEvent.ffmpegTimeout => (st1, false)
    | ConvEvent.outputNotFile => (st1, false)
    | ConvEvent.moveRaises => (st1, false)
    | ConvEvent.saveRaises =>
      ({ st1 with processed := setAdd h st1.processed }, false)
    | ConvEvent.success =>
      let p := setAdd h st1.processed
      ({ st1 with processed := p, disk := p }, true)
  ({ step.1 with converting := setDiscard h step.1.converting }, step.2)

/-- Exit paths of `_convert_video_remote`, as for the local variant. -/
inductive ConvEventR where
  | dryRun
  | validateFails
  | downloadFails
  | ffmpegFail
  | ffmpegTimeout
  | outputNotFile
  | uploadFails
  | saveRaises
  | success
deriving DecidableEq

/-- Source `_convert_video_remote` as a state transition, mirroring the
local variant (download/convert/upload failures all `return False` before
the commit; the `finally` block discards the hash unconditionally). -/
def convert_video_remote (hash : String → String) (path : String)
    (ev : ConvEventR) (st : ConvState) : ConvState × Bool :=
  let h := hash path
  let st1 : ConvState := { st with converting := setAdd h st.converting }
  let step : ConvState × Bool :=
    match ev with
    | ConvEventR.dryRun =>
      let p := setAdd h st1.processed
      ({ st1 with processed := p, disk := p }, true)
    | ConvEventR.validateFails => (st1, false)
    | ConvEventR.downloadFails => (st1, false)
    | ConvEventR.ffmpegFail => (st1, false)
    | ConvEventR.ffmpegTimeout => (st1, false)
    | ConvEventR.outputNotFile => (st1, false)
    | ConvEventR.uploadFails => (st1, false)
    | ConvEventR.saveRaises =>
      ({ st1 with processed := setAdd h st1.processed }, false)
    | ConvEventR.success =>
      let p := setAdd h st1.processed
      ({ st1 with processed := p, disk := p }, true)
  ({ step.1 with converting := setDiscard h step.1.converting }, step.2)

/-- Source `_should_process_remote`: ledger membership, in-flight
membership, `.m4v` extension, the existing-output probe (whose exception
is only logged — an `Except.error` result does not reject), then size
gating where a stat failure rejects. -/
def should_process_remote (hash : String → String) (st : ConvState)
    (existsCheck : Except Unit Bool) (statResult : Except Unit Nat)
    (path : String) : Bool :=
  let h := hash path
  if h ∈ st.processed then false
  else if h ∈ st.converting then false
  else if (posixSplitextExt path.data).map toLowerChar = ".m4v".data then false
  else
    let output := String.mk (posixSplitextRoot path.data) ++ ".m4v"
    let skipOutput : Bool :=
      if output ≠ path then
        match existsCheck with
        | Except.ok b => b
        | Except.error _ => false
      else false
    if skipOutput then false
    else match statResult with
      | Except.error _ => false
      | Except.ok size =>
        if size > MAX_FILE_SIZE_BYTES then false
        else if size = 0 then false
        else true

theorem not_mem_setDiscard (h : String) (l : List String) :
    h ∉ setDiscard h l := by
  simp [setDiscard, List.mem_filter]

theorem mem_setAdd_self (h : String) (l : List String) :
    h ∈ setAdd h l := by
  by_cases hm : h ∈ l <;> simp [setAdd, hm]

/-- C1: a candidate whose identity is already in the processed-files
ledger is refused by `should_process` and dispatched by `process_batch`
to no worker; moreover after any successful conversion attempt (which
commits the identity to the ledger), a second invocation refuses the
candidate and dispatches nothing for it. -/
theorem c1_pipeline_idempotence (hash : String → String) (st : ConvState)
    (fs : LocalFS) (F : String) (videos : List String)
    (hmem : hash F ∈ st.processed) :
    should_process_local hash st fs F = false
    ∧ F ∉ process_batch_to_process hash st fs videos
    ∧ (∀ (st0 : ConvState) (ev : ConvEvent) (fs' : LocalFS),
        (convert_video_local hash F ev st0).2 = true →
        should_process_local hash (convert_video_local hash F ev st0).1 fs' F = false
        ∧ F ∉ process_batch_to_process hash
            (convert_video_local hash F ev st0).1 fs' videos) := by
  have hrefuse : ∀ (st' : ConvState) (fs' : LocalFS), hash F ∈ st'.processed →
      should_process_local hash st' fs' F = false := by
    intro st' fs' hm
    simp [should_process_local, hm]
  have hnodisp : ∀ (st' : ConvState) (fs' : LocalFS), hash F ∈ st'.processed →
      F ∉ process_batch_to_process hash st' fs' videos := by
    intro st' fs' hm hcontra
    have := (List.mem_filter.mp hcontra).2
    rw [hrefuse st' fs' hm] at this
    cases this
  refine ⟨hrefuse st fs hmem, hnodisp st fs hmem, ?_⟩
  intro st0 ev fs' hok
  have hafter : hash F ∈ (convert_video_local hash F ev st0).1.processed := by
    cases ev <;> simp_all [convert_video_local, mem_setAdd_self]
  exact ⟨hrefuse _ fs' hafter, hnodisp _ fs' hafter⟩

/-- C1 witness: with the candidate's identity in the ledger, the concrete
pipeline state refuses it and the batch dispatch list omits it. -/
theorem c1_pipeline_idempotence_witness :
    should_process_local (fun _ => "h") ⟨["h"], [], []⟩
      ⟨fun _ => false, fun _ => some 5⟩ "a.mkv" = false
    ∧ "a.mkv" ∉ process_batch_to_process (fun _ => "h") ⟨["h"], [], []⟩
      ⟨fun _ => false, fun _ => some 5⟩ ["a.mkv"] :=
  ⟨(c1_pipeline_idempotence (fun _ => "h") ⟨["h"], [], []⟩
    ⟨fun _ => false, fun _ => some 5⟩ "a.mkv" ["a.mkv"] (by simp)).1,
   (c1_pipeline_idempotence (fun _ => "h") ⟨["h"], [], []⟩
    ⟨fun _ => false, fun _ => some 5⟩ "a.mkv" ["a.mkv"] (by simp)).2.1⟩

/-- C8 counterexample: when `save_processed_files` raises during the
commit step (after the in-memory `processed_files.add`), the attempt ends
as a failure yet the in-memory ledger has changed — refuting the claim
that every failed attempt leaves the ledger unchanged in memory. -/
theorem c8_counterexample_commit_failure :
    (convert_video_local (fun _ => "h") "f.mkv" ConvEvent.saveRaises
      ⟨[], [], []⟩).2 = false
    ∧ (convert_video_local (fun _ => "h") "f.mkv" ConvEvent.saveRaises
      ⟨[], [], []⟩).1.processed = ["h"] := by
  constructor <;> rfl

/-- C8 (amended): however a conversion attempt ends, the candidate's
identity is no longer in the in-flight set afterwards (local and remote);
and any attempt that fails before the ledger-commit step — in particular
a transcoder timeout — leaves the processed-files ledger unchanged both
in memory and on disk.  Only a failure of the ledger save itself (after
the in-memory add) ends a failed attempt with the in-memory set changed. -/
theorem c8_inflight_release_and_failure_atomicity (hash : String → String)
    (path : String) (st : ConvState) :
    (∀ ev, hash path ∉ (convert_video_local hash path ev st).1.converting)
    ∧ (∀ ev, (convert_video_local hash path ev st).2 = false →
        ev ≠ ConvEvent.saveRaises →
        (convert_video_local hash path ev st).1.processed = st.processed
        ∧ (convert_video_local hash path ev st).1.disk = st.disk)
    ∧ ((convert_video_local hash path ConvEvent.ffmpegTimeout st).2 = false
        ∧ hash path ∉ (convert_video_local hash path ConvEvent.ffmpegTimeout st).1.converting
        ∧ (convert_video_local hash path ConvEvent.ffmpegTimeout st).1.processed = st.processed
        ∧ (convert_video_local hash path ConvEvent.ffmpegTimeout st).1.disk = st.disk)
    ∧ (∀ ev, hash path ∉ (convert_video_remote hash path ev st).1.converting)
    ∧ (∀ ev, (convert_video_remote hash path ev st).2 = false →
        ev ≠ ConvEventR.saveRaises →
        (convert_video_remote hash path ev st).1.processed = st.processed
        ∧ (convert_video_remote hash path ev st).1.disk = st.disk) := by
  refine ⟨?_, ?_, ?_, ?_, ?_⟩
  · intro ev
    cases ev <;> simp [convert_video_local, not_mem_setDiscard]
  · intro ev hfail hne
    cases ev <;> simp_all [convert_video_local]
  · exact ⟨rfl, by simp [convert_video_local, not_mem_setDiscard], rfl, rfl⟩
  · intro ev
    cases ev <;> simp [convert_video_remote, not_mem_setDiscard]
  · intro ev hfail hne
    cases ev <;> simp_all [convert_video_remote]

/-- C8 witness: a concrete timed-out local attempt returns failure with
the in-flight set released and the ledger untouched, and a concrete
remote upload failure leaves the ledger untouched. -/
theorem c8_inflight_release_witness :
    ((convert_video_local (fun _ => "h") "f.mkv" ConvEvent.ffmpegFail
        ⟨["x"], [], ["x"]⟩).1.processed = ["x"]
      ∧ (convert_video_local (fun _ => "h") "f.mkv" ConvEvent.ffmpegFail
        ⟨["x"], [], ["x"]⟩).1.disk = ["x"])
    ∧ ((convert_video_remote (fun _ => "h") "f.mkv" ConvEventR.uploadFails
        ⟨["x"], [], ["x"]⟩).1.processed = ["x"]
      ∧ (convert_video_remote (fun _ => "h") "f.mkv" ConvEventR.uploadFails
        ⟨["x"], [], ["x"]⟩).1.disk = ["x"]) :=
  ⟨(c8_inflight_release_and_failure_atomicity (fun _ => "h") "f.mkv"
      ⟨["x"], [], ["x"]⟩).2.1 ConvEvent.ffmpegFail rfl (by decide),
   (c8_inflight_release_and_failure_atomicity (fun _ => "h") "f.mkv"
      ⟨["x"], [], ["x"]⟩).2.2.2.2 ConvEventR.uploadFails rfl (by decide)⟩

/-- C10: in `_should_process_remote` an exception from the remote
existing-output probe is only logged — with every other check passing the
candidate is still judged eligible — whereas a failure to stat the
candidate itself always makes `should_process` return false. -/
theorem c10_remote_eligibility_error_asymmetry (hash : String → String)
    (st : ConvState) (path : String) (size : Nat)
    (h1 : hash path ∉ st.processed) (h2 : hash path ∉ st.converting)
    (h3 : (posixSplitextExt path.data).map toLowerChar ≠ ".m4v".data)
    (h4 : 0 < size) (h5 : size ≤ MAX_FILE_SIZE_BYTES) :
    should_process_remote hash st (Except.error ()) (Except.ok size) path = true
    ∧ (∀ existsCheck,
        should_process_remote hash st existsCheck (Except.error ()) path = false) := by
  constructor
  · have hgt : ¬ size > MAX_FILE_SIZE_BYTES := by omega
    have hz : ¬ size = 0 := by omega
    simp [should_process_remote, h1, h2, h3, hgt, hz]
  · intro existsCheck
    by_cases hb1 : hash path ∈ st.processed
    · simp [should_process_remote, hb1]
    · by_cases hb2 : hash path ∈ st.converting
      · simp [should_process_remote, hb1, hb2]
      · by_cases hb3 : (posixSplitextExt path.data).map toLowerChar = ".m4v".data
        · simp [should_process_remote, hb1, hb2, hb3]
        · simp [should_process_remote, hb1, hb2, hb3]

/-- C10 witness: concrete instance — every other check passes, the
output-exists probe raises, and the candidate is still eligible; the same
candidate with a failing stat is rejected. -/
theorem c10_remote_eligibility_error_asymmetry_witness :
    should_process_remote (fun _ => "h") ⟨[], [], []⟩ (Except.error ())
      (Except.ok 5) "/m/a.mkv" = true
    ∧ should_process_remote (fun _ => "h") ⟨[], [], []⟩ (Except.ok false)
      (Except.error ()) "/m/a.mkv" = false :=
  ⟨(c10_remote_eligibility_error_asymmetry (fun _ => "h") ⟨[], [], []⟩
      "/m/a.mkv" 5 (by simp) (by simp) (by decide) (by decide) (by decide)).1,
   (c10_remote_eligibility_error_asymmetry (fun _ => "h") ⟨[], [], []⟩
      "/m/a.mkv" 5 (by simp) (by simp) (by decide) (by decide) (by decide)).2
      (Except.ok false)⟩

/-! ## Directory trees and candidate discovery (C6, C7)

A directory's content is a tree of named entries; `special` stands for a
directory entry that is neither a regular file nor a directory (so
`is_file`/`S_ISREG` is false).  Local discovery follows
`_discover_videos_local` (`os.walk`, no hidden-entry handling, global
`MAX_DISCOVERED_FILES` cap); remote discovery follows
`sftp_ops.sftp_list_videos` (hidden-entry skip, no cap) filtered by
`validate_remote_path` as in `_discover_videos_remote`. -/

mutual
inductive FEntry where
  | file (name : String)
  | special (name : String)
  | dir (name : String) (children : FEntries)
inductive FEntries where
  | nil
  | cons (e : FEntry) (tl : FEntries)
end

/-- The `filenames` part of one `os.walk` triple: non-directory entries of
one directory, with their full path and their `is_file` status. -/
def filesOfEntries (dirpath : String) : FEntries → List (String × Bool)
  | FEntries.nil => []
  | FEntries.cons (FEntry.file n) tl =>
    (dirpath ++ "/" ++ n, true) :: filesOfEntries dirpath tl
  | FEntries.cons (FEntry.special n) tl =>
    (dirpath ++ "/" ++ n, false) :: filesOfEntries dirpath tl
  | FEntries.cons (FEntry.dir _ _) tl => filesOfEntries dirpath tl

/-- Recursive part of `os.walk` (top-down, `followlinks=False` semantics:
every `dir` child is descended into — including hidden ones, since
`_discover_videos_local` never prunes `dirnames`). -/
def walkSubdirs : String → FEntries → List (String × Bool)
  | _, FEntries.nil => []
  | dp, FEntries.cons (FEntry.dir n cs) tl =>
    (filesOfEntries (dp ++ "/" ++ n) cs ++ walkSubdirs (dp ++ "/" ++ n) cs)
      ++ walkSubdirs dp tl
  | dp, FEntries.cons (FEntry.file _) tl => walkSubdirs dp tl
  | dp, FEntries.cons (FEntry.special _) tl => walkSubdirs dp tl

/-- All `(path, is_file)` pairs produced by `os.walk` over one root, in
walk order. -/
def os_walk (dirpath : String) (children : FEntries) : List (String × Bool) :=
  filesOfEntries dirpath children ++ walkSubdirs dirpath children

/-- File loop of `_discover_videos_local`, in source order: global cap
check, extension match (`suffix.lower() in ext_set`), `is_file`,
`_is_safe_path`, exclude patterns, then collection.  `safe` and `excl`
stand for the path-safety check and the exclude-glob match. -/
def discoverLoop (extSet : List (List Char)) (safe : String → Bool)
    (excl : String → Bool) : List String → List (String × Bool) → List String
  | acc, [] => acc
  | acc, (p, isfile) :: rest =>
    if acc.length ≥ MAX_DISCOVERED_FILES then acc
    else if (pathSuffix p.data).map toLowerChar ∈ extSet then
      if isfile then
        if safe p then
          if excl p then discoverLoop extSet safe excl acc rest
          else discoverLoop extSet safe excl (acc ++ [p]) rest
        else discoverLoop extSet safe excl acc rest
      else discoverLoop extSet safe excl acc rest
    else discoverLoop extSet safe excl acc rest

/-- Source `_discover_videos_local` over the roots that resolved to
directories: one `os.walk` per root feeding the shared collection loop. -/
def discover_videos_local (roots : List (String × FEntries))
    (extSet : List (List Char)) (safe : String → Bool) (excl : String → Bool) :
    List String :=
  discoverLoop extSet safe excl [] (roots.flatMap fun r => os_walk r.1 r.2)

/-- Python `entry.filename.startswith('.')`. -/
def hiddenName (n : String) : Bool :=
  match n.data with
  | '.' :: _ => true
  | _ => false

/-- Remote extension check of `sftp_list_videos`:
`ext and ext[1:].lower() in ext_set` with `posixpath.splitext`. -/
def remoteExtMatch (extSet : List (List Char)) (name : String) : Bool :=
  let ext := posixSplitextExt name.data
  ext ≠ [] && ((ext.drop 1).map toLowerChar ∈ extSet)

/-- Source `_walk_remote` of `sftp_list_videos`: per entry, skip hidden
names first, recurse into directories, collect regular files passing the
extension and exclude checks (`excl` receives filename and full path, as
`fnmatch` is tried on both); entries that are neither regular nor
directories are skipped. -/
def sftp_walk (extSet : List (List Char)) (excl : String → String → Bool) :
    String → FEntries → List String
  | _, FEntries.nil => []
  | dp, FEntries.cons (FEntry.file n) tl =>
    (if hiddenName n then []
     else if remoteExtMatch extSet n && !excl n (dp ++ "/" ++ n) then
       [dp ++ "/" ++ n]
     else [])
      ++ sftp_walk extSet excl dp tl
  | dp, FEntries.cons (FEntry.special n) tl =>
    (if hiddenName n then [] else []) ++ sftp_walk extSet excl dp tl
  | dp, FEntries.cons (FEntry.dir n cs) tl =>
    (if hiddenName n then [] else sftp_walk extSet excl (dp ++ "/" ++ n) cs)
      ++ sftp_walk extSet excl dp tl

/-- Source `sftp_list_videos` over all remote roots. -/
def sftp_list_videos (extSet : List (List Char))
    (excl : String → String → Bool) (trees : List (String × FEntries)) :
    List String :=
  trees.flatMap fun d => sftp_walk extSet excl d.1 d.2

/-- Source `_discover_videos_remote`: list then keep only paths passing
`validate_remote_path` against the configured remote directories. -/
def discover_videos_remote (extSet : List (List Char))
    (excl : String → String → Bool) (trees : List (String × FEntries)) :
    List String :=
  (sftp_list_videos extSet excl trees).filter fun p =>
    validate_remote_path p (trees.map Prod.fst)

/-- Path obtained from `dp` by descending through the components `rel`
(one `posixpath.join` per level). -/
def joinRel (dp : String) : List String → String
  | [] => dp
  | c :: rest => joinRel (dp ++ "/" ++ c) rest

theorem sftp_walk_no_hidden (extSet : List (List Char))
    (excl : String → String → Bool) :
    ∀ (cs : FEntries) (dp p : String), p ∈ sftp_walk extSet excl dp cs →
      ∃ rel : List String, rel ≠ [] ∧ (∀ c ∈ rel, hiddenName c = false) ∧
        p = joinRel dp rel
  | FEntries.nil, dp, p, hp => by simp [sftp_walk] at hp
  | FEntries.cons (FEntry.file n) tl, dp, p, hp => by
    rcases List.mem_append.mp hp with hhead | htail
    · by_cases hh : hiddenName n = true
      · simp [hh] at hhead
      · have hh' : hiddenName n = false := by
          cases h : hiddenName n with
          | true => exact absurd h hh
          | false => rfl
        by_cases hm : remoteExtMatch extSet n && !excl n (dp ++ "/" ++ n)
        · simp only [hh', Bool.false_eq_true, if_false, hm, if_true,
            List.mem_singleton, ite_false, ite_true] at hhead
          refine ⟨[n], by simp, by simp [hh'], ?_⟩
          simpa [joinRel] using hhead
        · simp [hh', hm] at hhead
    · exact sftp_walk_no_hidden extSet excl tl dp p htail
  | FEntries.cons (FEntry.special n) tl, dp, p, hp => by
    have htail : p ∈ sftp_walk extSet excl dp tl := by
      rcases List.mem_append.mp hp with hhead | htail
      · simp at hhead
      · exact htail
    exact sftp_walk_no_hidden extSet excl tl dp p htail
  | FEntries.cons (FEntry.dir n cs) tl, dp, p, hp => by
    rcases List.mem_append.mp hp with hhead | htail
    · by_cases hh : hiddenName n = true
      · simp [hh] at hhead
      · have hh' : hiddenName n = false := by
          cases h : hiddenName n with
          | true => exact absurd h hh
          | false => rfl
        rw [if_neg (by simp [hh'])] at hhead
        obtain ⟨rel, hne, hnh, hjoin⟩ :=
          sftp_walk_no_hidden extSet excl cs (dp ++ "/" ++ n) p hhead
        exact ⟨n :: rel, by simp, by
          intro c hc
          rcases List.mem_cons.mp hc with rfl | hcr
          · exact hh'
          · exact hnh c hcr, by simpa [joinRel] using hjoin⟩
    · exact sftp_walk_no_hidden extSet excl tl dp p htail

/-- C6 counterexample: in local mode a hidden-named video file is
discovered and returned — `_discover_videos_local` applies no
hidden-entry rule, refuting the claim for the local transport. -/
theorem c6_counterexample_local_returns_hidden :
    discover_videos_local
      [("/r", FEntries.cons (FEntry.file ".movie.mkv") FEntries.nil)]
      [".mkv".data] (fun _ => true) (fun _ => false) = ["/r/.movie.mkv"]
    ∧ hiddenName (String.mk (pathBasename "/r/.movie.mkv".data)) = true := by
  constructor <;> rfl

/-- C6 (amended): the remote transport honors the hidden-entry skip rule —
every candidate returned by remote discovery is reached from a configured
root purely through non-hidden components (hidden entries are neither
returned nor descended into).  The local transport applies no such rule
(see the counterexample). -/
theorem c6_remote_hidden_entry_skip (extSet : List (List Char))
    (excl : String → String → Bool) (trees : List (String × FEntries)) :
    ∀ p ∈ discover_videos_remote extSet excl trees,
      ∃ root tree rel, (root, tree) ∈ trees ∧ rel ≠ [] ∧
        (∀ c ∈ rel, hiddenName c = false) ∧ p = joinRel root rel := by
  intro p hp
  have hlist : p ∈ sftp_list_videos extSet excl trees :=
    (List.mem_filter.mp hp).1
  obtain ⟨d, hd, hwalk⟩ := List.mem_flatMap.mp hlist
  obtain ⟨rel, hne, hnh, hjoin⟩ :=
    sftp_walk_no_hidden extSet excl d.2 d.1 p hwalk
  exact ⟨d.1, d.2, rel, by simpa using hd, hne, hnh, hjoin⟩

/-- C6 witness: one concrete remote candidate decomposes into non-hidden
components under its root. -/
theorem c6_remote_hidden_entry_skip_witness :
    ∃ root tree rel,
      (root, tree) ∈
        [("/media", FEntries.cons (FEntry.file "a.mkv") FEntries.nil)] ∧
      rel ≠ [] ∧ (∀ c ∈ rel, hiddenName c = false) ∧
      "/media/a.mkv" = joinRel root rel :=
  c6_remote_hidden_entry_skip ["mkv".data] (fun _ _ => false)
    [("/media", FEntries.cons (FEntry.file "a.mkv") FEntries.nil)]
    "/media/a.mkv" (by decide)

theorem discoverLoop_length_le (extSet : List (List Char))
    (safe : String → Bool) (excl : String → Bool) :
    ∀ (l : List (String × Bool)) (acc : List String),
    acc.length ≤ MAX_DISCOVERED_FILES →
    (discoverLoop extSet safe excl acc l).length ≤ MAX_DISCOVERED_FILES := by
  intro l
  induction l with
  | nil => intro acc hacc; simpa [discoverLoop] using hacc
  | cons pb rest ih =>
    intro acc hacc
    obtain ⟨p, isfile⟩ := pb
    by_cases hcap : acc.length ≥ MAX_DISCOVERED_FILES
    · simpa [discoverLoop, hcap] using hacc
    · have hlt : acc.length < MAX_DISCOVERED_FILES := by omega
      by_cases hext : (pathSuffix p.data).map toLowerChar ∈ extSet
      · by_cases hfile : isfile = true
        · by_cases hsafe : safe p = true
          · by_cases hexcl : excl p = true
            · simpa [discoverLoop, hcap, hext, hfile, hsafe, hexcl] using
                ih acc hacc
            · have : (acc ++ [p]).length ≤ MAX_DISCOVERED_FILES := by
                simp; omega
              simpa [discoverLoop, hcap, hext, hfile, hsafe, hexcl] using
                ih (acc ++ [p]) this
          · simpa [discoverLoop, hcap, hext, hfile, hsafe] using ih acc hacc
        · simpa [discoverLoop, hcap, hext, hfile] using ih acc hacc
      · simpa [discoverLoop, hcap, hext] using ih acc hacc

/-- C7 (amended): local discovery never returns more than
`MAX_DISCOVERED_FILES` candidates, whatever the configured roots,
extension set, safety check and exclude patterns.  Remote discovery has
no such cap (see the counterexample). -/
theorem c7_local_discovery_cap (roots : List (String × FEntries))
    (extSet : List (List Char)) (safe : String → Bool)
    (excl : String → Bool) :
    (discover_videos_local roots extSet safe excl).length ≤
      MAX_DISCOVERED_FILES :=
  discoverLoop_length_le extSet safe excl _ [] (by simp)

/-- Remote tree with `n` sibling regular files named `a.mkv`. -/
def repFiles : Nat → FEntries
  | 0 => FEntries.nil
  | n + 1 => FEntries.cons (FEntry.file "a.mkv") (repFiles n)

theorem sftp_walk_repFiles (dp : String) :
    ∀ n : Nat, sftp_walk ["mkv".data] (fun _ _ => false) dp (repFiles n) =
      List.replicate n (dp ++ "/" ++ "a.mkv") := by
  intro n
  induction n with
  | zero => rfl
  | succ n ih =>
    have hh : hiddenName "a.mkv" = false := rfl
    have hm : remoteExtMatch ["mkv".data] "a.mkv" = true := rfl
    simp [repFiles, sftp_walk, hh, hm, ih, List.replicate_succ]

theorem filter_true_of_all {α : Type} (q : α → Bool) :
    ∀ l : List α, (∀ x ∈ l, q x = true) → l.filter q = l := by
  intro l
  induction l with
  | nil => intro _; rfl
  | cons x rest ih =>
    intro hall
    have hx := hall x (List.mem_cons_self _ _)
    simp [List.filter, hx, ih fun y hy => hall y (List.mem_cons_of_mem _ hy)]

/-- C7 counterexample: remote discovery over a root holding 10001 video
files returns all 10001 candidates — `sftp_list_videos` and
`_discover_videos_remote` enforce no `MAX_DISCOVERED_FILES` cap,
refuting the claim for remote mode. -/
theorem c7_counterexample_remote_uncapped :
    MAX_DISCOVERED_FILES <
      (discover_videos_remote ["mkv".data] (fun _ _ => false)
        [("/media", repFiles 10001)]).length := by
  have hwalk := sftp_walk_repFiles "/media" 10001
  have hval : validate_remote_path ("/media" ++ "/" ++ "a.mkv") ["/media"] = true := by
    decide
  have hlist : sftp_list_videos ["mkv".data] (fun _ _ => false)
      [("/media", repFiles 10001)] =
      List.replicate 10001 ("/media" ++ "/" ++ "a.mkv") := by
    simp only [sftp_list_videos, List.flatMap_cons, List.flatMap_nil,
      List.append_nil]
    exact hwalk
  have hfilter : discover_videos_remote ["mkv".data] (fun _ _ => false)
      [("/media", repFiles 10001)] =
      List.replicate 10001 ("/media" ++ "/" ++ "a.mkv") := by
    rw [discover_videos_remote, hlist]
    exact filter_true_of_all _ _ fun x hx => by
      rw [List.eq_of_mem_replicate hx]
      exact hval
  rw [hfilter, List.length_replicate]
  decide

/-! ## Local path safety (`_is_safe_path`, C9)

Local paths are modelled by their resolved component lists; strict
resolution (`Path.resolve(strict=True)`, following symlinks, raising
`OSError`/`ValueError` on failure) is an external filesystem operation and
is carried as the function parameter `resolve`, with `none` modelling a
raised error.  `Path.relative_to` succeeds exactly when the base's
components are a prefix of the resolved path's components. -/

/-- Source `_is_safe_path`: strictly resolve the candidate (fail closed on
an error); take the cached resolved allowed directories if non-empty,
otherwise strictly resolve the passed allowed directories, skipping
failures; accept iff `relative_to` succeeds against some resolved root. -/
def is_safe_path (resolve : List String → Option (List String))
    (cached : List (List String)) (allowed_dirs : List (List String))
    (path : List String) : Bool :=
  match resolve path with
  | none => false
  | some resolved =>
    let dirs := if cached ≠ [] then cached else allowed_dirs.filterMap resolve
    dirs.any fun d => List.isPrefixOf d resolved

/-- C9: `_is_safe_path` is fail-closed — it answers false whenever the
candidate path fails strict resolution, and whenever there is no resolved
allowed directory at all (no cache and an empty or fully-unresolvable
allowed list); and it answers true only with a successfully resolved
candidate contained under some successfully resolved allowed root.  The
embedding is a total function: no input raises. -/
theorem c9_is_safe_path_fail_closed
    (resolve : List String → Option (List String))
    (cached allowed_dirs : List (List String)) (path : List String) :
    (resolve path = none →
      is_safe_path resolve cached allowed_dirs path = false)
    ∧ (cached = [] → allowed_dirs.filterMap resolve = [] →
      is_safe_path resolve cached allowed_dirs path = false)
    ∧ (is_safe_path resolve cached allowed_dirs path = true →
      ∃ resolved, resolve path = some resolved ∧
        ∃ d ∈ (if cached ≠ [] then cached else allowed_dirs.filterMap resolve),
          List.isPrefixOf d resolved = true) := by
  refine ⟨?_, ?_, ?_⟩
  · intro hres
    simp [is_safe_path, hres]
  · intro hc hf
    cases hres : resolve path with
    | none => simp [is_safe_path, hres]
    | some resolved => simp [is_safe_path, hres, hc, hf]
  · intro htrue
    cases hres : resolve path with
    | none => rw [is_safe_path, hres] at htrue; cases htrue
    | some resolved =>
      refine ⟨resolved, rfl, ?_⟩
      rw [is_safe_path, hres] at htrue
      simpa [List.any_eq_true] using htrue

/-- C9 witness: with an empty allowed list and no cache, a concrete
candidate is rejected even when it itself resolves; and a candidate whose
resolution fails is rejected. -/
theorem c9_is_safe_path_fail_closed_witness :
    is_safe_path (fun p => some p) [] [] ["a"] = false
    ∧ is_safe_path (fun _ => none) [] [["a"]] ["a"] = false :=
  ⟨(c9_is_safe_path_fail_closed (fun p => some p) [] [] ["a"]).2.1 rfl rfl,
   (c9_is_safe_path_fail_closed (fun _ => none) [] [["a"]] ["a"]).1 rfl⟩

end VideoConverter
